import Mathlib

/-!
Verification of the chezmoi state-reconciliation core against its
natural-language specification.

The Go source is shallowly embedded: pure functions become Lean functions,
stateful code threads an explicit `SysState`, machine integers are `Nat`
(permissions and umasks are bit masks; 32-bit arithmetic is explicit
`% 4294967296`), and fallible code returns `Except String`.  System-backend
operations additionally return the list of mutating operations they issued,
which models the dry-run backend's record of modifications.
-/

namespace Chezmoi

/-- Byte strings are lists of naturals (each byte < 256). -/
abbrev Bytes := List Nat

/-- Absolute forward-slash-normalised paths. -/
abbrev Path := String

deriving instance DecidableEq for Except

/-! ## Bit-mask helpers (src/unnamed/part_001) -/

/-- Go's AND NOT operator x &^ y on unsigned integers: keep the bits of a
that are not set in b.  Since a &&& b has only bits of a, xor-ing it back
out of a clears exactly those bits. -/
def andNot (a b : Nat) : Nat := a ^^^ (a &&& b)

/-- umaskPermEqual returns if two permissions are equal after applying
umask: perm1 &^ umask == perm2 &^ umask. -/
def umaskPermEqual (perm1 perm2 umask : Nat) : Bool :=
  andNot perm1 umask == andNot perm2 umask

/-! ## SHA-256 (the contents digest used throughout the core) -/

/-- The modulus of the 32-bit words of SHA-256. -/
def m32 : Nat := 4294967296

/-- 32-bit addition. -/
def add32 (a b : Nat) : Nat := (a + b) % m32

/-- 32-bit right rotation by n. -/
def rotr32 (n x : Nat) : Nat := ((x >>> n) ||| ((x % m32) <<< (32 - n))) % m32

/-- SHA-256 small sigma 0. -/
def ssig0 (x : Nat) : Nat := (rotr32 7 x) ^^^ (rotr32 18 x) ^^^ (x >>> 3)

/-- SHA-256 small sigma 1. -/
def ssig1 (x : Nat) : Nat := (rotr32 17 x) ^^^ (rotr32 19 x) ^^^ (x >>> 10)

/-- SHA-256 big sigma 0. -/
def bsig0 (x : Nat) : Nat := (rotr32 2 x) ^^^ (rotr32 13 x) ^^^ (rotr32 22 x)

/-- SHA-256 big sigma 1. -/
def bsig1 (x : Nat) : Nat := (rotr32 6 x) ^^^ (rotr32 11 x) ^^^ (rotr32 25 x)

/-- SHA-256 choice function. -/
def ch32 (e f g : Nat) : Nat := (e &&& f) ^^^ ((e ^^^ 4294967295) &&& g)

/-- SHA-256 majority function. -/
def maj32 (a b c : Nat) : Nat := (a &&& b) ^^^ (a &&& c) ^^^ (b &&& c)

/-- The 64 SHA-256 round constants. -/
def sha256K : List Nat :=
  [1116352408, 1899447441, 3049323471, 3921009573, 961987163,
   1508970993, 2453635748, 2870763221, 3624381080, 310598401,
   607225278, 1426881987, 1925078388, 2162078206, 2614888103,
   3248222580, 3835390401, 4022224774, 264347078, 604807628,
   770255983, 1249150122, 1555081692, 1996064986, 2554220882,
   2821834349, 2952996808, 3210313671, 3336571891, 3584528711,
   113926993, 338241895, 666307205, 773529912, 1294757372,
   1396182291, 1695183700, 1986661051, 2177026350, 2456956037,
   2730485921, 2820302411, 3259730800, 3345764771, 3516065817,
   3600352804, 4094571909, 275423344, 430227734, 506948616,
   659060556, 883997877, 958139571, 1322822218, 1537002063,
   1747873779, 1955562222, 2024104815, 2227730452, 2361852424,
   2428436474, 2756734187, 3204031479, 3329325298]

/-- The SHA-256 working state: eight 32-bit words. -/
structure Hash8 where
  a : Nat
  b : Nat
  c : Nat
  d : Nat
  e : Nat
  f : Nat
  g : Nat
  h : Nat

/-- The SHA-256 initial hash value. -/
def sha256H0 : Hash8 :=
  ⟨1779033703, 3144134277, 1013904242, 2773480762,
   1359893119, 2600822924, 528734635, 1541459225⟩

/-- Big-endian 32-bit words from bytes (input length a multiple of 4). -/
def toWords : Bytes → List Nat
  | b0 :: b1 :: b2 :: b3 :: rest =>
    (((b0 * 256 + b1) * 256 + b2) * 256 + b3) :: toWords rest
  | _ => []

/-- Big-endian bytes of one 32-bit word. -/
def wordBytes (w : Nat) : Bytes :=
  [w / 16777216 % 256, w / 65536 % 256, w / 256 % 256, w % 256]

/-- The 8-byte big-endian encoding of the bit length in SHA-256 padding. -/
def lenBytes (bitLen : Nat) : Bytes :=
  [bitLen / 72057594037927936 % 256, bitLen / 281474976710656 % 256,
   bitLen / 1099511627776 % 256, bitLen / 4294967296 % 256,
   bitLen / 16777216 % 256, bitLen / 65536 % 256, bitLen / 256 % 256,
   bitLen % 256]

/-- SHA-256 padding: append 0x80, zeros to 56 mod 64, then the bit length. -/
def sha256pad (msg : Bytes) : Bytes :=
  msg ++ [128] ++ List.replicate ((55 - msg.length % 64 + 64) % 64) 0 ++
    lenBytes (msg.length * 8)

/-- Split a word list into 16-word blocks (fuel-indexed so that the kernel
can evaluate it). -/
def chunks16Aux : Nat → List Nat → List (List Nat)
  | 0, _ => []
  | _ + 1, [] => []
  | fuel + 1, w :: rest => (w :: rest.take 15) :: chunks16Aux fuel (rest.drop 15)

/-- One step of the message-schedule extension; recent holds the schedule
so far, most recent word first. -/
def schedStep (recent : List Nat) : List Nat :=
  add32 (add32 (ssig1 (recent.getD 1 0)) (recent.getD 6 0))
    (add32 (ssig0 (recent.getD 14 0)) (recent.getD 15 0)) :: recent

/-- Iterate the schedule extension n times. -/
def schedExtend : Nat → List Nat → List Nat
  | 0, r => r
  | n + 1, r => schedExtend n (schedStep r)

/-- The 64-word message schedule of one 16-word block. -/
def schedule (block : List Nat) : List Nat :=
  (schedExtend 48 block.reverse).reverse

/-- One SHA-256 compression round; kw is the (round constant, schedule
word) pair. -/
def sha256Round (s : Hash8) (kw : Nat × Nat) : Hash8 :=
  let t1 := add32 s.h (add32 (bsig1 s.e) (add32 (ch32 s.e s.f s.g) (add32 kw.1 kw.2)))
  let t2 := add32 (bsig0 s.a) (maj32 s.a s.b s.c)
  ⟨add32 t1 t2, s.a, s.b, s.c, add32 s.d t1, s.e, s.f, s.g⟩

/-- Process one 16-word block. -/
def processBlock (h0 : Hash8) (block : List Nat) : Hash8 :=
  let s := (sha256K.zip (schedule block)).foldl sha256Round h0
  ⟨add32 h0.a s.a, add32 h0.b s.b, add32 h0.c s.c, add32 h0.d s.d,
   add32 h0.e s.e, add32 h0.f s.f, add32 h0.g s.g, add32 h0.h s.h⟩

/-- The SHA-256 digest (32 bytes) of a byte string. -/
def sha256 (msg : Bytes) : Bytes :=
  let ws := toWords (sha256pad msg)
  let s := (chunks16Aux ws.length ws).foldl processBlock sha256H0
  wordBytes s.a ++ wordBytes s.b ++ wordBytes s.c ++ wordBytes s.d ++
    wordBytes s.e ++ wordBytes s.f ++ wordBytes s.g ++ wordBytes s.h

/-- The lowercase hex digit of a nibble. -/
def hexDigit (n : Nat) : Char :=
  if n < 10 then Char.ofNat (48 + n) else Char.ofNat (87 + n)

/-- Lowercase-hex encoding of a byte string (hex.EncodeToString). -/
def hexEncode (bs : Bytes) : String :=
  String.mk (bs.flatMap fun b => [hexDigit (b / 16), hexDigit (b % 16)])

/-! ## Slash-path helpers (Go path.Dir / path.Join, on clean slash paths) -/

/-- Split a character list at every occurrence of a separator (one
sublist per segment). -/
def splitOnChar (sep : Char) : List Char → List (List Char)
  | [] => [[]]
  | c :: rest =>
    if c = sep then [] :: splitOnChar sep rest
    else
      match splitOnChar sep rest with
      | [] => [[c]]
      | l :: ls => (c :: l) :: ls

/-- Join segments with a separator. -/
def joinChar (sep : Char) : List (List Char) → List Char
  | [] => []
  | [l] => l
  | l :: ls => l ++ sep :: joinChar sep ls

/-- Modelled from the spec: Go path.Dir on a clean forward-slash path, as
used by the path helpers the core relies on (the helper file itself is not
under src).  Returns everything before the last slash. -/
def pathDir (p : String) : String :=
  let parts := splitOnChar '/' p.toList
  if parts.length ≤ 1 then "."
  else
    let d := String.mk (joinChar '/' parts.dropLast)
    if d = "" then "/" else d

/-- Modelled from the spec: Go path.Join of a clean directory and a single
clean component. -/
def pathJoin (d n : String) : String :=
  if d = "/" then "/" ++ n else d ++ "/" ++ n

/-! ## Filesystem entries and the system backend state

The System interface implementations are not under src; they are modelled
from the spec (section 4.1): a flat map from paths to entries, a bucketed
persistent key-value store, and a log of the mutating operations issued
(the dry-run backend records exactly these).  Per the spec, the umask is
subtracted from declared permissions when creating entries. -/

/-- A filesystem entry: regular file, directory, or symlink. -/
inductive FsEntry
  | file (perm : Nat) (contents : Bytes)
  | dir (perm : Nat)
  | symlink (linkname : String)
deriving DecidableEq, Repr

/-- A mutating operation issued to the system backend. -/
inductive SysOp
  | chmod (p : Path) (perm : Nat)
  | writeFile (p : Path) (contents : Bytes) (perm : Nat)
  | writeSymlink (linkname : String) (p : Path)
  | mkdir (p : Path) (perm : Nat)
  | removeAll (p : Path)
  | rename (oldPath newPath : Path)
  | runScript (name : String) (dir : Path) (contents : Bytes)
  | psSet (bucket key value : String)
deriving DecidableEq, Repr

/-- Association-list lookup over the filesystem map. -/
def fsGet : List (Path × FsEntry) → Path → Option FsEntry
  | [], _ => none
  | (q, e) :: rest, p => if q = p then some e else fsGet rest p

/-- Association-list insert-or-overwrite over the filesystem map. -/
def fsSet : List (Path × FsEntry) → Path → FsEntry → List (Path × FsEntry)
  | [], p, e => [(p, e)]
  | (q, e0) :: rest, p, e =>
    if q = p then (p, e) :: rest else (q, e0) :: fsSet rest p e

/-- Association-list removal over the filesystem map. -/
def fsRemove : List (Path × FsEntry) → Path → List (Path × FsEntry)
  | [], _ => []
  | (q, e) :: rest, p =>
    if q = p then fsRemove rest p else (q, e) :: fsRemove rest p

/-- Bucketed persistent-state lookup. -/
def kvGet : List ((String × String) × String) → String → String → Option String
  | [], _, _ => none
  | (bk, v) :: rest, b, k =>
    if bk = (b, k) then some v else kvGet rest b k

/-- Bucketed persistent-state insert-or-overwrite. -/
def kvSet : List ((String × String) × String) → String → String → String →
    List ((String × String) × String)
  | [], b, k, v => [((b, k), v)]
  | (bk, v0) :: rest, b, k, v =>
    if bk = (b, k) then ((b, k), v) :: rest else (bk, v0) :: kvSet rest b k v

/-- The state of the modelled system backend: the filesystem, the
persistent key-value store, the log of executed scripts, the process
umask, and the current time (for script-once records). -/
structure SysState where
  fs : List (Path × FsEntry)
  ps : List ((String × String) × String)
  scriptRuns : List (String × Bytes)
  umask : Nat
  now : Nat
deriving DecidableEq, Repr

/-- Chmod: adjust the permissions of an existing entry (exact bits, no
umask, as the chmod system call). -/
def sysChmod (p : Path) (perm : Nat) (st : SysState) :
    Except String (SysState × List SysOp) :=
  match fsGet st.fs p with
  | none => .error "chmod: no such file or directory"
  | some (.file _ c) => .ok ({ st with fs := fsSet st.fs p (.file perm c) }, [.chmod p perm])
  | some (.dir _) => .ok ({ st with fs := fsSet st.fs p (.dir perm) }, [.chmod p perm])
  | some (.symlink l) => .ok ({ st with fs := fsSet st.fs p (.symlink l) }, [.chmod p perm])

/-- WriteFile: create or replace a regular file; the umask is subtracted
from the declared permissions on creation (spec section 3). -/
def sysWriteFile (p : Path) (contents : Bytes) (perm : Nat) (st : SysState) :
    Except String (SysState × List SysOp) :=
  .ok ({ st with fs := fsSet st.fs p (.file (andNot perm st.umask) contents) },
    [.writeFile p contents perm])

/-- WriteSymlink: replace any existing entry with a symlink. -/
def sysWriteSymlink (linkname : String) (p : Path) (st : SysState) :
    Except String (SysState × List SysOp) :=
  .ok ({ st with fs := fsSet st.fs p (.symlink linkname) }, [.writeSymlink linkname p])

/-- Mkdir: create a directory; fails if an entry already exists; the umask
is subtracted from the declared permissions. -/
def sysMkdir (p : Path) (perm : Nat) (st : SysState) :
    Except String (SysState × List SysOp) :=
  match fsGet st.fs p with
  | some _ => .error "mkdir: file exists"
  | none => .ok ({ st with fs := fsSet st.fs p (.dir (andNot perm st.umask)) },
      [.mkdir p perm])

/-- RemoveAll: remove the entry recursively; succeeds when absent. -/
def sysRemoveAll (p : Path) (st : SysState) :
    Except String (SysState × List SysOp) :=
  .ok ({ st with fs := fsRemove st.fs p }, [.removeAll p])

/-- Rename: move an existing entry to a new path. -/
def sysRename (oldPath newPath : Path) (st : SysState) :
    Except String (SysState × List SysOp) :=
  match fsGet st.fs oldPath with
  | none => .error "rename: no such file or directory"
  | some e => .ok ({ st with fs := fsSet (fsRemove st.fs oldPath) newPath e },
      [.rename oldPath newPath])

/-- RunScript: execute a script; the run is recorded in the state. -/
def sysRunScript (name : String) (dir : Path) (contents : Bytes) (st : SysState) :
    Except String (SysState × List SysOp) :=
  .ok ({ st with scriptRuns := st.scriptRuns ++ [(name, contents)] },
    [.runScript name dir contents])

/-- PersistentState().Get on the modelled key-value store. -/
def sysPersistentGet (bucket key : String) (st : SysState) : Option String :=
  kvGet st.ps bucket key

/-- PersistentState().Set on the modelled key-value store. -/
def sysPersistentSet (bucket key value : String) (st : SysState) :
    SysState × List SysOp :=
  ({ st with ps := kvSet st.ps bucket key value }, [.psSet bucket key value])

/-! ## Actual state entries (spec section 4.2; constructed by probing) -/

/-- An ActualStateEntry describes what is currently on disk at a path.
The file contents and the symlink target are lazy reads and may carry a
read error, mirroring lazyContents and lazyLinkname. -/
inductive ActualStateEntry
  | absent (path : String)
  | dir (path : String) (perm : Nat)
  | file (path : String) (perm : Nat) (contents : Except String Bytes)
  | symlink (path : String) (linkname : Except String String)

/-- Path returns the path of an actual state entry. -/
def ActualStateEntry.Path : ActualStateEntry → String
  | .absent p => p
  | .dir p _ => p
  | .file p _ _ => p
  | .symlink p _ => p

/-- Remove removes an actual state entry: a no-op when absent, RemoveAll
otherwise. -/
def ActualStateEntry.Remove (a : ActualStateEntry) (st : SysState) :
    Except String (SysState × List SysOp) :=
  match a with
  | .absent _ => .ok (st, [])
  | _ => sysRemoveAll a.Path st

/-- GetActualStateEntry: probe the backend with a non-following stat and
build the actual state entry of a path (spec section 4.2). -/
def probeEntry (st : SysState) (p : Path) : ActualStateEntry :=
  match fsGet st.fs p with
  | none => .absent p
  | some (.file perm c) => .file p perm (.ok c)
  | some (.dir perm) => .dir p perm
  | some (.symlink l) => .symlink p (.ok l)

/-! ## Target state entries (src/next/internal/chezmoi/targetstateentry.go)

Each variant's Apply and Equal are translated line by line from the Go
source.  Lazy contents and linknames are embedded as memoised results
`Except String Bytes` / `Except String String`: the first error of the
producer, or the produced value.  Apply takes the actual state entry and
the umask and threads the system state explicitly; success carries the new
state and the log of mutating operations issued. -/

/-- The name of the persistent-state bucket recording executed
run-once scripts.  Modelled from the spec: the constant's declaration is
not under src; the spec fixes it to "scriptOnceState". -/
def ScriptOnceStateBucket : String := "scriptOnceState"

/-- Modelled from the spec: isEmpty (referenced by TargetStateScript.Apply
but declared outside src) returns whether contents are empty, where
all-whitespace counts as empty. -/
def isWhitespaceByte (b : Nat) : Bool :=
  b == 32 || b == 9 || b == 10 || b == 11 || b == 12 || b == 13

/-- Modelled from the spec: contents are empty when every byte is
whitespace. -/
def contentsEmpty (contents : Bytes) : Bool :=
  contents.all isWhitespaceByte

/-- Modelled from the spec: the JSON serialisation of a script-once record
with fields name and runAt. -/
def scriptOnceValue (name : String) (runAt : Nat) : String :=
  "\x7b\"name\":\"" ++ name ++ "\",\"runAt\":\"" ++ toString runAt ++ "\"\x7d"

/-- A TargetStateAbsent represents the absence of an entry in the target
state. -/
structure TargetStateAbsent where

/-- A TargetStateDir represents the state of a directory in the target
state. -/
structure TargetStateDir where
  perm : Nat

/-- A TargetStateFile represents the state of a file in the target state;
contents is the memoised lazy contents. -/
structure TargetStateFile where
  contents : Except String Bytes
  perm : Nat

/-- A TargetStatePresent represents the presence of an entry in the target
state. -/
structure TargetStatePresent where
  contents : Except String Bytes
  perm : Nat

/-- A TargetStateRenameDir represents the renaming of a directory in the
target state. -/
structure TargetStateRenameDir where
  oldName : String
  newName : String

/-- A TargetStateScript represents the state of a script. -/
structure TargetStateScript where
  contents : Except String Bytes
  name : String
  once : Bool

/-- A TargetStateSymlink represents the state of a symlink in the target
state; linkname is the memoised lazy linkname. -/
structure TargetStateSymlink where
  linkname : Except String String

/-- TargetStateAbsent.Apply: remove any actual entry at the path. -/
def TargetStateAbsent.Apply (_ : TargetStateAbsent) (a : ActualStateEntry)
    (_ : Nat) (st : SysState) : Except String (SysState × List SysOp) :=
  match a with
  | .absent _ => .ok (st, [])
  | _ => sysRemoveAll a.Path st

/-- TargetStateAbsent.Equal: true exactly when the actual entry is
absent. -/
def TargetStateAbsent.Equal (_ : TargetStateAbsent) (a : ActualStateEntry)
    (_ : Nat) : Except String Bool :=
  match a with
  | .absent _ => .ok true
  | _ => .ok false

/-- TargetStateDir.Apply: chmod an existing directory whose permissions
differ under the umask, otherwise remove the actual entry and mkdir. -/
def TargetStateDir.Apply (t : TargetStateDir) (a : ActualStateEntry)
    (umask : Nat) (st : SysState) : Except String (SysState × List SysOp) :=
  match a with
  | .dir p perm =>
    if umaskPermEqual perm t.perm umask then .ok (st, [])
    else sysChmod p t.perm st
  | _ =>
    match a.Remove st with
    | .error e => .error e
    | .ok (st1, l1) =>
      match sysMkdir a.Path t.perm st1 with
      | .error e => .error e
      | .ok (st2, l2) => .ok (st2, l1 ++ l2)

/-- TargetStateDir.Equal: the actual entry is a directory with
permissions equal under the umask. -/
def TargetStateDir.Equal (t : TargetStateDir) (a : ActualStateEntry)
    (umask : Nat) : Except String Bool :=
  match a with
  | .dir _ perm =>
    if umaskPermEqual perm t.perm umask then .ok true else .ok false
  | _ => .ok false

/-- TargetStateFile.Apply: when the actual entry is a file, compare
contents by SHA-256; when equal, reconcile permissions via Chmod only
when they differ under the umask; when the hashes differ, fall through to
WriteFile with no removal.  When the actual entry is not a file, remove
it and fall through to WriteFile. -/
def TargetStateFile.Apply (t : TargetStateFile) (a : ActualStateEntry)
    (umask : Nat) (st : SysState) : Except String (SysState × List SysOp) :=
  match a with
  | .file p perm actualContents =>
    match actualContents with
    | .error e => .error e
    | .ok ac =>
      match t.contents with
      | .error e => .error e
      | .ok c =>
        if sha256 ac = sha256 c then
          if umaskPermEqual perm t.perm umask then .ok (st, [])
          else sysChmod p t.perm st
        else
          sysWriteFile p c t.perm st
  | _ =>
    match a.Remove st with
    | .error e => .error e
    | .ok (st1, l1) =>
      match t.contents with
      | .error e => .error e
      | .ok c =>
        match sysWriteFile a.Path c t.perm st1 with
        | .error e => .error e
        | .ok (st2, l2) => .ok (st2, l1 ++ l2)

/-- TargetStateFile.Equal: the actual entry is a file whose permissions
are equal under the umask and whose contents have the same SHA-256. -/
def TargetStateFile.Equal (t : TargetStateFile) (a : ActualStateEntry)
    (umask : Nat) : Except String Bool :=
  match a with
  | .file _ perm actualContents =>
    if ¬ umaskPermEqual perm t.perm umask then .ok false
    else
      match actualContents with
      | .error e => .error e
      | .ok ac =>
        match t.contents with
        | .error e => .error e
        | .ok c =>
          if sha256 ac = sha256 c then .ok true else .ok false
  | _ => .ok false

/-- TargetStatePresent.Apply: when the actual entry is a file, reconcile
permissions only; otherwise remove the actual entry and write the
contents. -/
def TargetStatePresent.Apply (t : TargetStatePresent) (a : ActualStateEntry)
    (umask : Nat) (st : SysState) : Except String (SysState × List SysOp) :=
  match a with
  | .file p perm _ =>
    if umaskPermEqual perm t.perm umask then .ok (st, [])
    else sysChmod p t.perm st
  | _ =>
    match a.Remove st with
    | .error e => .error e
    | .ok (st1, l1) =>
      match t.contents with
      | .error e => .error e
      | .ok c =>
        match sysWriteFile a.Path c t.perm st1 with
        | .error e => .error e
        | .ok (st2, l2) => .ok (st2, l1 ++ l2)

/-- TargetStatePresent.Equal: the actual entry is a file whose
permissions are equal under the umask; contents are not compared. -/
def TargetStatePresent.Equal (t : TargetStatePresent) (a : ActualStateEntry)
    (umask : Nat) : Except String Bool :=
  match a with
  | .file _ perm _ =>
    if ¬ umaskPermEqual perm t.perm umask then .ok false
    else .ok true
  | _ => .ok false

/-- TargetStateRenameDir.Apply: rename oldName to newName within the
parent directory of the actual entry's path. -/
def TargetStateRenameDir.Apply (t : TargetStateRenameDir)
    (a : ActualStateEntry) (_ : Nat) (st : SysState) :
    Except String (SysState × List SysOp) :=
  let dir := pathDir a.Path
  sysRename (pathJoin dir t.oldName) (pathJoin dir t.newName) st

/-- TargetStateRenameDir.Equal returns false because the actual entry has
not been renamed. -/
def TargetStateRenameDir.Equal (_ : TargetStateRenameDir)
    (_ : ActualStateEntry) (_ : Nat) : Except String Bool :=
  .ok false

/-- TargetStateScript.Apply: for a run-once script, stop when the
persistent state already holds the hex SHA-256 key of the contents; stop
when the contents are empty; otherwise run the script in the parent
directory of the path and, for a run-once script, persist the record
under the key. -/
def TargetStateScript.Apply (t : TargetStateScript) (a : ActualStateEntry)
    (_ : Nat) (st : SysState) : Except String (SysState × List SysOp) :=
  if t.once then
    match t.contents with
    | .error e => .error e
    | .ok c =>
      let key := hexEncode (sha256 c)
      match sysPersistentGet ScriptOnceStateBucket key st with
      | some _ => .ok (st, [])
      | none =>
        if contentsEmpty c then .ok (st, [])
        else
          match sysRunScript t.name (pathDir a.Path) c st with
          | .error e => .error e
          | .ok (st1, l1) =>
            match sysPersistentSet ScriptOnceStateBucket key
                (scriptOnceValue t.name st.now) st1 with
            | (st2, l2) => .ok (st2, l1 ++ l2)
  else
    match t.contents with
    | .error e => .error e
    | .ok c =>
      if contentsEmpty c then .ok (st, [])
      else sysRunScript t.name (pathDir a.Path) c st

/-- TargetStateScript.Equal returns true unconditionally: scripts are
independent of the actual state. -/
def TargetStateScript.Equal (_ : TargetStateScript) (_ : ActualStateEntry)
    (_ : Nat) : Except String Bool :=
  .ok true

/-- TargetStateSymlink.Apply: when the actual entry is a symlink with the
same link target, do nothing; otherwise remove the actual entry and write
the symlink. -/
def TargetStateSymlink.Apply (t : TargetStateSymlink) (a : ActualStateEntry)
    (_ : Nat) (st : SysState) : Except String (SysState × List SysOp) :=
  match a with
  | .symlink _ actualLinkname =>
    match actualLinkname with
    | .error e => .error e
    | .ok al =>
      match t.linkname with
      | .error e => .error e
      | .ok l =>
        if al = l then .ok (st, [])
        else
          match a.Remove st with
          | .error e => .error e
          | .ok (st1, l1) =>
            match sysWriteSymlink l a.Path st1 with
            | .error e => .error e
            | .ok (st2, l2) => .ok (st2, l1 ++ l2)
  | _ =>
    match t.linkname with
    | .error e => .error e
    | .ok l =>
      match a.Remove st with
      | .error e => .error e
      | .ok (st1, l1) =>
        match sysWriteSymlink l a.Path st1 with
        | .error e => .error e
        | .ok (st2, l2) => .ok (st2, l1 ++ l2)

/-- TargetStateSymlink.Equal: the actual entry is a symlink with the same
link target.  An error reading the actual linkname is propagated; an
error evaluating the target's lazy linkname yields false with no error. -/
def TargetStateSymlink.Equal (t : TargetStateSymlink) (a : ActualStateEntry)
    (_ : Nat) : Except String Bool :=
  match a with
  | .symlink _ actualLinkname =>
    match actualLinkname with
    | .error e => .error e
    | .ok al =>
      match t.linkname with
      | .error _ => .ok false
      | .ok l =>
        if al ≠ l then .ok false
        else .ok true
  | _ => .ok false

/-- The closed set of target state entry variants. -/
inductive TargetStateEntry
  | absent (t : TargetStateAbsent)
  | dir (t : TargetStateDir)
  | file (t : TargetStateFile)
  | present (t : TargetStatePresent)
  | renameDir (t : TargetStateRenameDir)
  | script (t : TargetStateScript)
  | symlink (t : TargetStateSymlink)

/-- Apply, dispatched on the target state variant. -/
def TargetStateEntry.Apply (t : TargetStateEntry) (a : ActualStateEntry)
    (umask : Nat) (st : SysState) : Except String (SysState × List SysOp) :=
  match t with
  | .absent t => t.Apply a umask st
  | .dir t => t.Apply a umask st
  | .file t => t.Apply a umask st
  | .present t => t.Apply a umask st
  | .renameDir t => t.Apply a umask st
  | .script t => t.Apply a umask st
  | .symlink t => t.Apply a umask st

/-- Equal, dispatched on the target state variant. -/
def TargetStateEntry.Equal (t : TargetStateEntry) (a : ActualStateEntry)
    (umask : Nat) : Except String Bool :=
  match t with
  | .absent t => t.Equal a umask
  | .dir t => t.Equal a umask
  | .file t => t.Equal a umask
  | .present t => t.Equal a umask
  | .renameDir t => t.Equal a umask
  | .script t => t.Equal a umask
  | .symlink t => t.Equal a umask

/-- Whether a target state entry is the rename-directory variant. -/
def TargetStateEntry.isRenameDir : TargetStateEntry → Bool
  | .renameDir _ => true
  | _ => false

/-! ## KeePassXC credential-tool helpers (src/unnamed/part_000) -/

/-- Split a character list on line feeds (one sublist per segment; a
trailing line feed yields a final empty segment). -/
def splitOnLF : List Char → List (List Char)
  | [] => [[]]
  | c :: rest =>
    if c = '\n' then [] :: splitOnLF rest
    else
      match splitOnLF rest with
      | [] => [[c]]
      | l :: ls => (c :: l) :: ls

/-- Drop a single trailing carriage return, as bufio.ScanLines does. -/
def dropCR (l : List Char) : List Char :=
  if l.getLast? = some '\r' then l.dropLast else l

/-- The lines produced by bufio.Scanner with ScanLines: segments between
line feeds, each stripped of one trailing carriage return; no final empty
token after a trailing line feed. -/
def scanLines (s : String) : List String :=
  let parts := splitOnLF s.toList
  let parts := if parts.getLast? = some [] then parts.dropLast else parts
  parts.map fun l => String.mk (dropCR l)

/-- Split a character list at its first colon; none when there is no
colon. -/
def splitAtColon : List Char → Option (List Char × List Char)
  | [] => none
  | c :: cs =>
    if c = ':' then some ([], cs)
    else
      match splitAtColon cs with
      | none => none
      | some (k, v) => some (c :: k, v)

/-- Whether a line matches keePassXCPairRegexp, the anchored pattern of a
nonempty colon-free field name, a colon, a space, and the value: the
first colon must exist, not be first, and be followed by a space. -/
def matchPair (s : String) : Option (String × String) :=
  match splitAtColon s.toList with
  | none => none
  | some ([], _) => none
  | some (k, rest) =>
    match rest with
    | ' ' :: v => some (String.mk k, String.mk v)
    | _ => none

/-- Map lookup on the parsed field map. -/
def mapGet : List (String × String) → String → Option String
  | [], _ => none
  | (k0, v0) :: rest, k => if k0 = k then some v0 else mapGet rest k

/-- Map insert-or-overwrite on the parsed field map. -/
def mapSet : List (String × String) → String → String → List (String × String)
  | [], k, v => [(k, v)]
  | (k0, v0) :: rest, k, v =>
    if k0 = k then (k, v) :: rest else (k0, v0) :: mapSet rest k v

/-- The scanner loop of parseKeyPassXCOutput: skip the line with index 0,
match every later line against the pair pattern, fail on the first line
that does not match. -/
def parseLinesAux : List String → Nat → List (String × String) →
    Except String (List (String × String))
  | [], _, data => .ok data
  | s :: rest, i, data =>
    if i = 0 then parseLinesAux rest (i + 1) data
    else
      match matchPair s with
      | none => .error ("cannot parse " ++ s)
      | some (k, v) => parseLinesAux rest (i + 1) (mapSet data k v)

/-- parseKeyPassXCOutput parses the output of the show subcommand into a
field-name-to-value map. -/
def parseKeyPassXCOutput (output : String) :
    Except String (List (String × String)) :=
  parseLinesAux (scanLines output) 0 []

/-- readPassword's non-terminal loop, reading stdin byte-wise: skip
carriage returns, return at a line feed, cap the password at 1024 bytes,
accept end of input as a terminator only when the password is nonempty.
Returns the password and the unconsumed rest of stdin. -/
def readPasswordLoop : List Nat → List Nat → Except String (List Nat × List Nat)
  | [], pw => if pw.length > 0 then .ok (pw, []) else .error "EOF"
  | b :: rest, pw =>
    if b ≠ 13 then
      if b = 10 then .ok (pw, rest)
      else
        if (pw ++ [b]).length > 1024 then .error "password too long"
        else readPasswordLoop rest (pw ++ [b])
    else readPasswordLoop rest pw

/-- readPassword on a non-terminal stdin modelled as a byte stream. -/
def readPassword (stdin : List Nat) : Except String (List Nat × List Nat) :=
  readPasswordLoop stdin []

/-- The process-wide state of the KeePassXC helper: the cached password
(the empty string means not yet cached, as in the Go global), the
remaining stdin bytes, and a count of password reads performed. -/
structure KeePassXCProcState where
  keePassXCPassword : List Nat
  stdin : List Nat
  passwordReads : Nat
deriving DecidableEq, Repr

/-- runKeePassXCCLICommand: when the cached password is empty, read a
password from stdin (propagating failure) and cache it; then pipe the
password followed by a line feed to the child.  The returned bytes are
what is piped to the child's stdin; the child invocation itself is
external.  Modelled from the spec at the child boundary. -/
def runKeePassXCCLICommand (st : KeePassXCProcState) :
    Except String (List Nat × KeePassXCProcState) :=
  if st.keePassXCPassword.isEmpty then
    match readPassword st.stdin with
    | .error e => .error e
    | .ok (pw, rest) =>
      let st1 : KeePassXCProcState :=
        { keePassXCPassword := pw, stdin := rest,
          passwordReads := st.passwordReads + 1 }
      .ok (st1.keePassXCPassword ++ [10], st1)
  else .ok (st.keePassXCPassword ++ [10], st)

/-! ## Unmanaged listing (src/next/cmd/unmanagedcmd.go)

The destination tree is a rose tree; target names are segment lists
relative to the destination root.  The source state is modelled from the
spec (section 6) as two predicates: Entry-lookup success (managed) and
Ignored.  The walker prunes with SkipDir exactly as the source's walk
function does. -/

mutual
/-- A node of the destination directory tree. -/
inductive DirTree
  | file (name : String)
  | dir (name : String) (children : DirForest)
/-- A list of sibling nodes. -/
inductive DirForest
  | nil
  | cons (hd : DirTree) (tl : DirForest)
end

mutual
/-- The walk function of runUnmanagedCmd on one node: emit the target
name when neither managed nor ignored; descend into a directory only
when it is managed and not ignored (otherwise SkipDir). -/
def walkUnmanagedTree (managed ignored : List String → Bool)
    (pre : List String) : DirTree → List (List String)
  | .file n =>
    let p := pre ++ [n]
    if !managed p && !ignored p then [p] else []
  | .dir n cs =>
    let p := pre ++ [n]
    (if !managed p && !ignored p then [p] else []) ++
      (if !managed p || ignored p then []
       else walkUnmanagedForest managed ignored p cs)

/-- The walk function of runUnmanagedCmd on a sibling list. -/
def walkUnmanagedForest (managed ignored : List String → Bool)
    (pre : List String) : DirForest → List (List String)
  | .nil => []
  | .cons t rest =>
    walkUnmanagedTree managed ignored pre t ++
      walkUnmanagedForest managed ignored pre rest
end

/-- runUnmanagedCmd: walk the destination from the root (the root itself
is skipped) and collect the emitted target names in walk order. -/
def runUnmanagedCmd (managed ignored : List String → Bool)
    (dest : DirForest) : List (List String) :=
  walkUnmanagedForest managed ignored [] dest

mutual
/-- Specification-side enumeration of every path of a tree, each paired
with the list of its proper ancestors below the root (no pruning). -/
def allEntriesTree (anc : List (List String)) (pre : List String) :
    DirTree → List (List String × List (List String))
  | .file n => [(pre ++ [n], anc)]
  | .dir n cs =>
    (pre ++ [n], anc) ::
      allEntriesForest (anc ++ [pre ++ [n]]) (pre ++ [n]) cs

/-- Specification-side enumeration over a sibling list. -/
def allEntriesForest (anc : List (List String)) (pre : List String) :
    DirForest → List (List String × List (List String))
  | .nil => []
  | .cons t rest =>
    allEntriesTree anc pre t ++ allEntriesForest anc pre rest
end

/-- The specification of the unmanaged listing, in the words of the
claim: exactly those paths of the destination (root excluded) that are
neither managed nor ignored and all of whose proper ancestors are managed
and not ignored (descent into unmanaged or ignored directories is
pruned). -/
def unmanagedSpecListing (managed ignored : List String → Bool)
    (dest : DirForest) : List (List String) :=
  (allEntriesForest [] [] dest).filterMap fun pa =>
    if (!managed pa.1 && !ignored pa.1) &&
        pa.2.all (fun a => managed a && !ignored a) then some pa.1 else none

/-! ## Verify (src/next/cmd/unmanagedcmd.go, runVerifyCmd) -/

/-- The outcome of a command: success (exit code zero), a non-zero exit
code, or an error. -/
inductive CmdResult
  | success
  | exitCode (n : Nat)
  | failure (e : String)
deriving DecidableEq, Repr

/-- Modelled from the spec: the dry-run backend's Modified() reports
whether any mutating operation was recorded during the pass. -/
def dryRunModified (ops : List SysOp) : Bool := !ops.isEmpty

/-- runVerifyCmd: run the apply pass against a dry-run system; propagate
its error; exit with code 1 when the dry-run system was modified, with
success otherwise.  The pass is abstracted as a function of the system
state since applyArgs is not under src. -/
def runVerifyCmd (pass : SysState → Except String (SysState × List SysOp))
    (st : SysState) : CmdResult :=
  match pass st with
  | .error e => .failure e
  | .ok (_, ops) => if dryRunModified ops then .exitCode 1 else .success

/-! ## Specification-side definition for the password claim -/

/-- The password of a byte stream in the words of the claim: the bytes up
to but excluding the first line feed with every carriage return removed;
failure when that prefix exceeds 1024 bytes; end of input terminates only
a nonempty password, and yields the EOF error otherwise. -/
def passwordClaimSpec (stdin : List Nat) : Except String (List Nat) :=
  let pre := (stdin.takeWhile fun b => b ≠ 10).filter fun b => b ≠ 13
  if 1024 < pre.length then .error "password too long"
  else if stdin.any (fun b => b = 10) then .ok pre
  else if pre = [] then .error "EOF"
  else .ok pre

/-- passwordClaimSpec generalised over the already-accepted prefix pw,
the invariant of readPasswordLoop. -/
def passwordSpecFrom (pw stdin : List Nat) : Except String (List Nat) :=
  let pre := pw ++ (stdin.takeWhile fun b => b ≠ 10).filter fun b => b ≠ 13
  if 1024 < pre.length then .error "password too long"
  else if stdin.any (fun b => b = 10) then .ok pre
  else if pre = [] then .error "EOF"
  else .ok pre

/-- The tail of the parse loop of parseKeyPassXCOutput: every remaining
line must match the pair pattern (the first-line skip already done). -/
def parseTail : List String → List (String × String) →
    Except String (List (String × String))
  | [], data => .ok data
  | s :: rest, data =>
    match matchPair s with
    | none => .error ("cannot parse " ++ s)
    | some (k, v) => parseTail rest (mapSet data k v)

/-! ## Bit-mask lemmas -/

/-- The bits of a &^ b are the bits of a that are not set in b. -/
theorem andNot_testBit (a b k : Nat) :
    (andNot a b).testBit k = (a.testBit k && !(b.testBit k)) := by
  simp only [andNot, Nat.testBit_xor, Nat.testBit_and]
  cases a.testBit k <;> cases b.testBit k <;> rfl

/-- Clearing no bits is the identity. -/
theorem andNot_zero (a : Nat) : andNot a 0 = a := by
  apply Nat.eq_of_testBit_eq
  intro i
  simp [andNot_testBit]

/-- Clearing the same bits twice equals clearing them once. -/
theorem andNot_andNot (a b : Nat) : andNot (andNot a b) b = andNot a b := by
  apply Nat.eq_of_testBit_eq
  intro i
  simp only [andNot_testBit]
  cases a.testBit i <;> cases b.testBit i <;> rfl

/-- umaskPermEqual is reflexive. -/
theorem umaskPermEqual_refl (p u : Nat) : umaskPermEqual p p u = true := by
  simp [umaskPermEqual]

/-- A permission masked by the umask is umask-equal to the unmasked
permission. -/
theorem umaskPermEqual_masked (p u : Nat) :
    umaskPermEqual (andNot p u) p u = true := by
  simp [umaskPermEqual, andNot_andNot]

/-! ## Association-list lemmas -/

/-- Lookup after insert at the same path. -/
theorem fsGet_fsSet_self (fs : List (Path × FsEntry)) (p : Path) (e : FsEntry) :
    fsGet (fsSet fs p e) p = some e := by
  induction fs with
  | nil => simp [fsSet, fsGet]
  | cons hd tl ih =>
    obtain ⟨q, e0⟩ := hd
    by_cases h : q = p <;> simp [fsSet, fsGet, h, ih]

/-- Lookup after removal at the same path. -/
theorem fsGet_fsRemove_self (fs : List (Path × FsEntry)) (p : Path) :
    fsGet (fsRemove fs p) p = none := by
  induction fs with
  | nil => simp [fsRemove, fsGet]
  | cons hd tl ih =>
    obtain ⟨q, e0⟩ := hd
    by_cases h : q = p <;> simp [fsRemove, fsGet, h, ih]

/-- Persistent-state lookup after setting the same bucket and key. -/
theorem kvGet_kvSet_self (ps : List ((String × String) × String))
    (b k v : String) : kvGet (kvSet ps b k v) b k = some v := by
  induction ps with
  | nil => simp [kvSet, kvGet]
  | cons hd tl ih =>
    obtain ⟨bk, v0⟩ := hd
    by_cases h : bk = (b, k) <;> simp [kvSet, kvGet, h, ih]

/-! ## Claim C8: algebra of umaskPermEqual -/

/-- Claim C8: for all 12-bit permissions p, p1, p2 and umask u,
umaskPermEqual p p u is true, and umaskPermEqual p1 p2 0 is true if and
only if p1 = p2. -/
theorem umaskPermEqual_algebra (p p1 p2 u : Nat)
    (hp : p < 4096) (hp1 : p1 < 4096) (hp2 : p2 < 4096) (hu : u < 4096) :
    umaskPermEqual p p u = true ∧
      (umaskPermEqual p1 p2 0 = true ↔ p1 = p2) := by
  refine ⟨umaskPermEqual_refl p u, ?_⟩
  simp [umaskPermEqual, andNot_zero]

/-- Witness for the umaskPermEqual algebra at concrete 12-bit inputs. -/
theorem umaskPermEqual_algebra_witness :
    umaskPermEqual 420 420 18 = true ∧
      (umaskPermEqual 420 384 0 = true ↔ 420 = 384) :=
  umaskPermEqual_algebra 420 420 384 18 (by decide) (by decide) (by decide)
    (by decide)

/-! ## Claim C10: error asymmetry of TargetStateSymlink.Equal -/

/-- Claim C10: TargetStateSymlink.Equal propagates an error from reading
the actual symlink's link target, but an error evaluating the target's
own lazy linkname is swallowed and yields false with no error, so a
target-side evaluation failure is indistinguishable from inequality. -/
theorem symlink_equal_error_asymmetry (t : TargetStateSymlink)
    (p e al : String) (u : Nat) :
    TargetStateSymlink.Equal t (.symlink p (.error e)) u = .error e ∧
      (t.linkname = .error e →
        TargetStateSymlink.Equal t (.symlink p (.ok al)) u = .ok false) := by
  constructor
  · rfl
  · intro h
    simp [TargetStateSymlink.Equal, h]

/-- Witness for the Equal error asymmetry at concrete inputs. -/
theorem symlink_equal_error_asymmetry_witness :
    TargetStateSymlink.Equal ⟨.error "boom"⟩ (.symlink "/l" (.error "io")) 0 =
        .error "io" ∧
      TargetStateSymlink.Equal ⟨.error "boom"⟩ (.symlink "/l" (.ok "x")) 0 =
        .ok false :=
  ⟨(symlink_equal_error_asymmetry ⟨.error "boom"⟩ "/l" "io" "x" 0).1,
   (symlink_equal_error_asymmetry ⟨.error "boom"⟩ "/l" "boom" "x" 0).2 rfl⟩

/-! ## Claim C7: verify exit codes -/

/-- Claim C7: when the dry-run apply pass itself succeeds, verify exits
with code zero exactly when the dry-run backend reports no modifications,
and with exit code 1 when it reports any. -/
theorem runVerifyCmd_exit_codes
    (pass : SysState → Except String (SysState × List SysOp))
    (st st1 : SysState) (ops : List SysOp)
    (h : pass st = .ok (st1, ops)) :
    (runVerifyCmd pass st = .success ↔ ops = []) ∧
      (ops ≠ [] → runVerifyCmd pass st = .exitCode 1) := by
  unfold runVerifyCmd
  rw [h]
  cases ops <;> simp [dryRunModified]

/-- Witness for the verify exit codes on a pass that records nothing. -/
theorem runVerifyCmd_exit_codes_witness :
    (runVerifyCmd (fun s => .ok (s, [])) ⟨[], [], [], 0, 0⟩ = .success ↔
        ([] : List SysOp) = []) ∧
      (([] : List SysOp) ≠ [] →
        runVerifyCmd (fun s => .ok (s, [])) ⟨[], [], [], 0, 0⟩ = .exitCode 1) :=
  runVerifyCmd_exit_codes _ _ _ _ rfl

/-! ## Claim C9: process-wide password caching -/

/-- Counterexample to claim C9 as stated: the first invocation
successfully reads a password (the empty one: stdin starts with a line
feed), yet the second invocation reads a password again, because the
cache sentinel is the empty string.  The read counter increments on both
invocations. -/
theorem runKeePassXC_empty_password_rereads :
    runKeePassXCCLICommand ⟨[], [10, 10], 0⟩ = .ok ([10], ⟨[], [10], 1⟩) ∧
      runKeePassXCCLICommand ⟨[], [10], 1⟩ = .ok ([10], ⟨[], [], 2⟩) :=
  ⟨rfl, rfl⟩

/-- A cached nonempty password short-circuits the invocation: the cached
password is piped and the process state is unchanged. -/
theorem runKeePassXC_cached_run (s : KeePassXCProcState)
    (hne : s.keePassXCPassword ≠ []) :
    runKeePassXCCLICommand s = .ok (s.keePassXCPassword ++ [10], s) := by
  unfold runKeePassXCCLICommand
  rw [if_neg]
  simp [hne]

/-- Claim C9 amended: after an invocation leaves a nonempty cached
password, every later credential-tool invocation in the same process
reuses the cached password and does not read a password again (the
process state, including the read count, is unchanged). -/
theorem runKeePassXC_caches_nonempty (st : KeePassXCProcState)
    (out : List Nat) (st1 : KeePassXCProcState)
    (h : runKeePassXCCLICommand st = .ok (out, st1))
    (hne : st1.keePassXCPassword ≠ []) :
    runKeePassXCCLICommand st1 = .ok (st1.keePassXCPassword ++ [10], st1) ∧
      out = st1.keePassXCPassword ++ [10] := by
  refine ⟨runKeePassXC_cached_run st1 hne, ?_⟩
  unfold runKeePassXCCLICommand at h
  by_cases hemp : st.keePassXCPassword.isEmpty
  · rw [if_pos hemp] at h
    cases hrp : readPassword st.stdin with
    | error e => rw [hrp] at h; exact absurd h (by simp)
    | ok pr =>
      obtain ⟨pw, rest⟩ := pr
      rw [hrp] at h
      simp only [Except.ok.injEq, Prod.mk.injEq] at h
      obtain ⟨ho, hst⟩ := h
      rw [← hst]
      exact ho.symm
  · rw [if_neg hemp] at h
    simp only [Except.ok.injEq, Prod.mk.injEq] at h
    obtain ⟨ho, hst⟩ := h
    rw [← hst]
    exact ho.symm

/-- Witness for the amended caching claim: the first invocation reads a
nonempty password, the second reuses it. -/
theorem runKeePassXC_caches_nonempty_witness :
    runKeePassXCCLICommand ⟨[97], [], 1⟩ = .ok ([97] ++ [10], ⟨[97], [], 1⟩) ∧
      [97, 10] = [97] ++ [10] :=
  runKeePassXC_caches_nonempty ⟨[], [97, 10], 0⟩ [97, 10] ⟨[97], [], 1⟩ rfl
    (by decide)

/-! ## Claim C4: parsing of the show subcommand output -/

/-- After the first line the loop index never returns to zero, so the
loop agrees with parseTail. -/
theorem parseLinesAux_succ : ∀ (ls : List String) (i : Nat)
    (data : List (String × String)), i ≠ 0 →
    parseLinesAux ls i data = parseTail ls data := by
  intro ls
  induction ls with
  | nil => intro i data h; rfl
  | cons s rest ih =>
    intro i data h
    simp only [parseLinesAux, parseTail, if_neg h]
    cases hm : matchPair s with
    | none => rfl
    | some kv => exact ih (i + 1) (mapSet data kv.1 kv.2) (Nat.succ_ne_zero i)

/-- parseTail succeeds exactly when every line matches the pair
pattern. -/
theorem parseTail_ok_iff : ∀ (ls : List String) (data : List (String × String)),
    (∃ m, parseTail ls data = .ok m) ↔ ∀ s ∈ ls, matchPair s ≠ none := by
  intro ls
  induction ls with
  | nil => intro data; simp [parseTail]
  | cons s rest ih =>
    intro data
    cases hm : matchPair s with
    | none => simp [parseTail, hm]
    | some kv => simp [parseTail, hm, ih]

/-- Lookup after insert at the same key. -/
theorem mapGet_mapSet_self (d : List (String × String)) (k v : String) :
    mapGet (mapSet d k v) k = some v := by
  induction d with
  | nil => simp [mapSet, mapGet]
  | cons hd tl ih =>
    obtain ⟨k0, v0⟩ := hd
    by_cases h : k0 = k <;> simp [mapSet, mapGet, h, ih]

/-- Insertion never removes a present key. -/
theorem mapGet_mapSet_preserve (d : List (String × String)) (k2 v k : String)
    (h : mapGet d k ≠ none) : mapGet (mapSet d k2 v) k ≠ none := by
  induction d with
  | nil => simp [mapGet] at h
  | cons hd tl ih =>
    obtain ⟨k0, v0⟩ := hd
    by_cases h0 : k0 = k2
    · subst h0
      by_cases hk : k0 = k <;> simp_all [mapSet, mapGet]
    · by_cases hk : k0 = k <;> simp_all [mapSet, mapGet]

/-- A key present in the accumulator stays present in the parse
result. -/
theorem parseTail_keeps : ∀ (ls : List String) (data m : List (String × String))
    (k : String), parseTail ls data = .ok m → mapGet data k ≠ none →
    mapGet m k ≠ none := by
  intro ls
  induction ls with
  | nil =>
    intro data m k h hk
    simp only [parseTail, Except.ok.injEq] at h
    rw [← h]
    exact hk
  | cons s rest ih =>
    intro data m k h hk
    cases hm : matchPair s with
    | none => rw [parseTail, hm] at h; exact absurd h (by simp)
    | some kv =>
      rw [parseTail, hm] at h
      exact ih _ m k h (mapGet_mapSet_preserve data kv.1 kv.2 k hk)

/-- Every line matched by the pair pattern contributes its field name to
the parse result. -/
theorem parseTail_maps : ∀ (ls : List String) (data m : List (String × String)),
    parseTail ls data = .ok m → ∀ s ∈ ls, ∀ k v, matchPair s = some (k, v) →
    mapGet m k ≠ none := by
  intro ls
  induction ls with
  | nil => intro data m h s hs; simp at hs
  | cons s0 rest ih =>
    intro data m h s hs k v hkv
    cases hm : matchPair s0 with
    | none => rw [parseTail, hm] at h; exact absurd h (by simp)
    | some kv0 =>
      rw [parseTail, hm] at h
      rcases List.mem_cons.mp hs with hs0 | hsr
      · subst hs0
        rw [hm] at hkv
        cases hkv
        exact parseTail_keeps rest _ m k h
          (by rw [mapGet_mapSet_self]; simp)
      · exact ih _ m h s hsr k v hkv

/-- Claim C4 amended: parsing of the credential tool's show output
ignores the first line, maps every later line matching the pair pattern
to a field entry, and fails exactly when some non-first line (blank lines
included, which never match) does not match the pattern. -/
theorem parseKeyPassXCOutput_spec (output l0 : String) (ls : List String)
    (hscan : scanLines output = l0 :: ls) :
    ((∃ m, parseKeyPassXCOutput output = .ok m) ↔
        ∀ s ∈ ls, matchPair s ≠ none) ∧
      (∀ m, parseKeyPassXCOutput output = .ok m →
        ∀ s ∈ ls, ∀ k v, matchPair s = some (k, v) → mapGet m k ≠ none) ∧
      ∀ l0q, parseLinesAux (l0q :: ls) 0 [] = parseKeyPassXCOutput output := by
  have hfirst : ∀ l0q : String, parseLinesAux (l0q :: ls) 0 [] = parseTail ls [] := by
    intro l0q
    simp only [parseLinesAux, if_pos rfl]
    exact parseLinesAux_succ ls 1 [] one_ne_zero
  have hout : parseKeyPassXCOutput output = parseTail ls [] := by
    unfold parseKeyPassXCOutput
    rw [hscan]
    exact hfirst l0
  refine ⟨?_, ?_, ?_⟩
  · rw [hout]
    exact parseTail_ok_iff ls []
  · intro m hm
    rw [hout] at hm
    exact parseTail_maps ls [] m hm
  · intro l0q
    rw [hout]
    exact hfirst l0q

/-- Witness for the amended parse claim on a two-line output. -/
theorem parseKeyPassXCOutput_spec_witness :
    ((∃ m, parseKeyPassXCOutput "Title: t\nUserName: u\n" = .ok m) ↔
        ∀ s ∈ ["UserName: u"], matchPair s ≠ none) ∧
      (∀ m, parseKeyPassXCOutput "Title: t\nUserName: u\n" = .ok m →
        ∀ s ∈ ["UserName: u"], ∀ k v, matchPair s = some (k, v) →
          mapGet m k ≠ none) ∧
      ∀ l0q, parseLinesAux (l0q :: ["UserName: u"]) 0 [] =
        parseKeyPassXCOutput "Title: t\nUserName: u\n" :=
  parseKeyPassXCOutput_spec "Title: t\nUserName: u\n" "Title: t" ["UserName: u"]
    (by decide)

/-- Counterexample to claim C4 as stated: on the output consisting of a
title line and one blank line, every non-blank non-first line matches the
pattern (there is none), yet parsing fails. -/
theorem parseKeyPassXCOutput_blank_line_fails :
    parseKeyPassXCOutput "Title\n\n" = .error "cannot parse " ∧
      scanLines "Title\n\n" = ["Title", ""] :=
  ⟨rfl, rfl⟩

/-! ## Claim C5: readPassword on a byte stream -/

/-- The loop invariant of readPassword: with accepted prefix pw of
length at most 1024, the loop computes passwordSpecFrom. -/
theorem readPasswordLoop_spec : ∀ (stdin pw : List Nat), pw.length ≤ 1024 →
    (readPasswordLoop stdin pw).map Prod.fst = passwordSpecFrom pw stdin := by
  intro stdin
  induction stdin with
  | nil =>
    intro pw h
    cases pw with
    | nil => rfl
    | cons b bs =>
      have e2 : passwordSpecFrom (b :: bs) [] = .ok (b :: bs) := by
        unfold passwordSpecFrom
        simp only [List.takeWhile_nil, List.filter_nil, List.append_nil,
          List.any_nil]
        rw [if_neg (by omega : ¬ 1024 < (b :: bs).length),
          if_neg (by simp : ¬ (false = true)),
          if_neg (by simp : ¬ (b :: bs = []))]
      rw [e2]
      simp [readPasswordLoop, Except.map]
  | cons b rest ih =>
    intro pw h
    by_cases h13 : b = 13
    · subst h13
      have e1 : readPasswordLoop (13 :: rest) pw = readPasswordLoop rest pw := by
        simp [readPasswordLoop]
      have e2 : passwordSpecFrom pw (13 :: rest) = passwordSpecFrom pw rest := by
        simp [passwordSpecFrom]
      rw [e1, e2]
      exact ih pw h
    · by_cases h10 : b = 10
      · subst h10
        have hlt : ¬ 1024 < pw.length := by omega
        have e2 : passwordSpecFrom pw (10 :: rest) = .ok pw := by
          simp [passwordSpecFrom, hlt]
        rw [e2]
        simp [readPasswordLoop, Except.map]
      · have e1 : readPasswordLoop (b :: rest) pw =
            if (pw ++ [b]).length > 1024 then .error "password too long"
            else readPasswordLoop rest (pw ++ [b]) := by
          simp [readPasswordLoop, h13, h10]
        have e2 : passwordSpecFrom pw (b :: rest) =
            passwordSpecFrom (pw ++ [b]) rest := by
          simp [passwordSpecFrom, h13, h10]
        rw [e2, e1]
        by_cases hlen : (pw ++ [b]).length > 1024
        · rw [if_pos hlen]
          simp only [passwordSpecFrom]
          split
          · rfl
          next hc =>
            exact absurd (by simp at hlen ⊢; omega) hc
        · rw [if_neg hlen]
          exact ih (pw ++ [b]) (by simp at hlen ⊢; omega)

/-- Claim C5: on a non-terminal stdin, readPassword returns the bytes up
to but excluding the first line feed with every carriage return removed;
end of input terminates only a nonempty password (the EOF error is
returned otherwise); a password longer than 1024 bytes fails. -/
theorem readPassword_spec (stdin : List Nat) :
    (readPassword stdin).map Prod.fst = passwordClaimSpec stdin := by
  have h := readPasswordLoop_spec stdin [] (by simp)
  rw [readPassword]
  rw [h]
  rfl

/-! ## Claim C2: run-once scripts -/

/-- Claim C2: for a run-once script, every key the persistent state is
written under is exactly the lowercase-hex SHA-256 of the script
contents in the scriptOnceState bucket, and after one successful Apply
any further Apply in the same persistent-state lifetime is a complete
no-op: no script run, no operation, no state change. -/
theorem script_once_runs_at_most_once (t : TargetStateScript)
    (a : ActualStateEntry) (u : Nat) (st st1 : SysState) (l1 : List SysOp)
    (c : Bytes) (honce : t.once = true) (hc : t.contents = .ok c)
    (h1 : t.Apply a u st = .ok (st1, l1)) :
    (∀ op ∈ l1, ∀ b k v, op = SysOp.psSet b k v →
      b = ScriptOnceStateBucket ∧ k = hexEncode (sha256 c)) ∧
      ∀ (a2 : ActualStateEntry) (u2 : Nat), t.Apply a2 u2 st1 = .ok (st1, []) := by
  unfold TargetStateScript.Apply at h1 ⊢
  rw [honce, hc] at h1
  rw [if_pos rfl] at h1
  dsimp only [] at h1
  cases hget : sysPersistentGet ScriptOnceStateBucket (hexEncode (sha256 c)) st with
  | some v =>
    rw [hget] at h1
    simp only [Except.ok.injEq, Prod.mk.injEq] at h1
    obtain ⟨hst, hl⟩ := h1
    subst hst
    subst hl
    refine ⟨by simp, ?_⟩
    intro a2 u2
    rw [honce, hc]
    rw [if_pos rfl]
    dsimp only []
    rw [hget]
  | none =>
    rw [hget] at h1
    by_cases hemp : contentsEmpty c
    · rw [if_pos hemp] at h1
      simp only [Except.ok.injEq, Prod.mk.injEq] at h1
      obtain ⟨hst, hl⟩ := h1
      subst hst
      subst hl
      refine ⟨by simp, ?_⟩
      intro a2 u2
      rw [honce, hc]
      rw [if_pos rfl]
      dsimp only []
      rw [hget, if_pos hemp]
    · rw [if_neg hemp] at h1
      simp only [sysRunScript, sysPersistentSet] at h1
      simp only [Except.ok.injEq, Prod.mk.injEq] at h1
      obtain ⟨hst, hl⟩ := h1
      constructor
      · intro op hop b k v hpsop
        rw [← hl] at hop
        simp only [List.cons_append, List.nil_append, List.mem_cons,
          List.not_mem_nil, or_false] at hop
        cases hop with
        | inl hrun => rw [hrun] at hpsop; exact absurd hpsop (by simp)
        | inr hset =>
          rw [hset] at hpsop
          cases hpsop
          exact ⟨rfl, rfl⟩
      · intro a2 u2
        rw [honce, hc]
        rw [if_pos rfl]
        dsimp only []
        have : sysPersistentGet ScriptOnceStateBucket (hexEncode (sha256 c)) st1 =
            some (scriptOnceValue t.name st.now) := by
          rw [← hst]
          simp [sysPersistentGet, kvGet_kvSet_self]
        rw [this]

/-- Witness for the run-once script claim: a concrete one-byte script on
an empty state runs once and writes its record; the second Apply is a
no-op. -/
theorem script_once_runs_at_most_once_witness :
    TargetStateScript.Apply ⟨.ok [101], "s", true⟩ (.absent "/q") 7
        ⟨[], [((ScriptOnceStateBucket, hexEncode (sha256 [101])),
          scriptOnceValue "s" 0)], [("s", [101])], 0, 0⟩ =
      .ok (⟨[], [((ScriptOnceStateBucket, hexEncode (sha256 [101])),
        scriptOnceValue "s" 0)], [("s", [101])], 0, 0⟩, []) :=
  (script_once_runs_at_most_once ⟨.ok [101], "s", true⟩ (.absent "/d/x") 0
    ⟨[], [], [], 0, 0⟩
    ⟨[], [((ScriptOnceStateBucket, hexEncode (sha256 [101])),
      scriptOnceValue "s" 0)], [("s", [101])], 0, 0⟩
    [SysOp.runScript "s" "/d" [101],
      SysOp.psSet ScriptOnceStateBucket (hexEncode (sha256 [101]))
        (scriptOnceValue "s" 0)]
    [101] rfl rfl (by decide)).2 (.absent "/q") 7

/-! ## Claim C3: TargetStateFile.Apply on an actual file -/

/-- Claim C3 amended: when the actual entry is a file with the same
contents SHA-256, Apply issues only a Chmod and only when the
permissions differ under the umask; when the actual entry is a file with
a different contents SHA-256, Apply writes the new contents in place
with a single WriteFile and no prior removal. -/
theorem file_apply_on_actual_file (t : TargetStateFile) (st : SysState)
    (p : Path) (u pf : Nat) (cf c : Bytes)
    (hfs : fsGet st.fs p = some (.file pf cf)) (hc : t.contents = .ok c) :
    (sha256 cf = sha256 c → umaskPermEqual pf t.perm u = true →
      t.Apply (probeEntry st p) u st = .ok (st, [])) ∧
    (sha256 cf = sha256 c → umaskPermEqual pf t.perm u = false →
      t.Apply (probeEntry st p) u st =
        .ok ({ st with fs := fsSet st.fs p (.file t.perm cf) },
          [SysOp.chmod p t.perm])) ∧
    (sha256 cf ≠ sha256 c →
      t.Apply (probeEntry st p) u st =
        .ok ({ st with fs := fsSet st.fs p (.file (andNot t.perm st.umask) c) },
          [SysOp.writeFile p c t.perm])) := by
  have hprobe : probeEntry st p = .file p pf (.ok cf) := by
    simp [probeEntry, hfs]
  rw [hprobe]
  unfold TargetStateFile.Apply
  rw [hc]
  dsimp only []
  refine ⟨?_, ?_, ?_⟩
  · intro hs hp
    rw [if_pos hs, if_pos hp]
  · intro hs hp
    rw [if_pos hs, if_neg (by simp [hp])]
    simp [sysChmod, hfs]
  · intro hs
    rw [if_neg hs]
    simp [sysWriteFile]

/-- Witness for the amended file-apply claim: permissions differ under
the umask, contents agree, so a single Chmod is issued. -/
theorem file_apply_on_actual_file_witness :
    TargetStateFile.Apply ⟨.ok [120], 420⟩
        (probeEntry ⟨[("/f", .file 384 [120])], [], [], 18, 0⟩ "/f") 18
        ⟨[("/f", .file 384 [120])], [], [], 18, 0⟩ =
      .ok (⟨[("/f", .file 420 [120])], [], [], 18, 0⟩,
        [SysOp.chmod "/f" 420]) :=
  (file_apply_on_actual_file ⟨.ok [120], 420⟩
    ⟨[("/f", .file 384 [120])], [], [], 18, 0⟩ "/f" 18 384 [120] [120]
    rfl rfl).2.1 rfl (by decide)

/-- Counterexample to claim C3 as stated: the actual entry is a file
whose contents SHA-256 differs from the target's, yet Apply issues a
single WriteFile and no prior removal. -/
theorem file_apply_overwrites_without_remove :
    sha256 [120] ≠ sha256 [121] ∧
      TargetStateFile.Apply ⟨.ok [121], 420⟩
          (probeEntry ⟨[("/f", .file 420 [120])], [], [], 0, 0⟩ "/f") 0
          ⟨[("/f", .file 420 [120])], [], [], 0, 0⟩ =
        .ok (⟨[("/f", .file 420 [121])], [], [], 0, 0⟩,
          [SysOp.writeFile "/f" [121] 420]) := by
  exact ⟨by decide, by decide⟩

/-! ## Claim C1: Apply establishes Equal on a fresh probe -/

/-- Probing a path that is absent from the filesystem map. -/
theorem probe_none (st : SysState) (p : Path) (h : fsGet st.fs p = none) :
    probeEntry st p = .absent p := by
  simp [probeEntry, h]

/-- Probing a path holding a regular file. -/
theorem probe_file (st : SysState) (p : Path) (pm : Nat) (c : Bytes)
    (h : fsGet st.fs p = some (.file pm c)) :
    probeEntry st p = .file p pm (.ok c) := by
  simp [probeEntry, h]

/-- Probing a path holding a directory. -/
theorem probe_dir (st : SysState) (p : Path) (pm : Nat)
    (h : fsGet st.fs p = some (.dir pm)) :
    probeEntry st p = .dir p pm := by
  simp [probeEntry, h]

/-- Probing a path holding a symlink. -/
theorem probe_symlink (st : SysState) (p : Path) (ln : String)
    (h : fsGet st.fs p = some (.symlink ln)) :
    probeEntry st p = .symlink p (.ok ln) := by
  simp [probeEntry, h]

/-- Probing after RemoveAll yields absent. -/
theorem probe_removed (st : SysState) (p : Path) :
    probeEntry { st with fs := fsRemove st.fs p } p = .absent p := by
  simp [probeEntry, fsGet_fsRemove_self]

/-- Probing right after inserting a directory entry. -/
theorem probe_set_dir (fs0 : List (Path × FsEntry))
    (ps0 : List ((String × String) × String)) (sr0 : List (String × Bytes))
    (um0 n0 : Nat) (p : Path) (pm : Nat) :
    probeEntry ⟨fsSet fs0 p (.dir pm), ps0, sr0, um0, n0⟩ p = .dir p pm := by
  simp [probeEntry, fsGet_fsSet_self]

/-- Probing right after inserting a file entry. -/
theorem probe_set_file (fs0 : List (Path × FsEntry))
    (ps0 : List ((String × String) × String)) (sr0 : List (String × Bytes))
    (um0 n0 : Nat) (p : Path) (pm : Nat) (c : Bytes) :
    probeEntry ⟨fsSet fs0 p (.file pm c), ps0, sr0, um0, n0⟩ p =
      .file p pm (.ok c) := by
  simp [probeEntry, fsGet_fsSet_self]

/-- Probing right after inserting a symlink entry. -/
theorem probe_set_symlink (fs0 : List (Path × FsEntry))
    (ps0 : List ((String × String) × String)) (sr0 : List (String × Bytes))
    (um0 n0 : Nat) (p : Path) (ln : String) :
    probeEntry ⟨fsSet fs0 p (.symlink ln), ps0, sr0, um0, n0⟩ p =
      .symlink p (.ok ln) := by
  simp [probeEntry, fsGet_fsSet_self]

/-- Apply then Equal on a fresh probe, for the absent target state. -/
theorem absent_apply_equal (t : TargetStateAbsent) (st st1 : SysState)
    (p : Path) (u : Nat) (l : List SysOp)
    (h : t.Apply (probeEntry st p) u st = .ok (st1, l)) :
    t.Equal (probeEntry st1 p) u = .ok true := by
  unfold TargetStateAbsent.Apply at h
  cases hfs : fsGet st.fs p with
  | none =>
    rw [probe_none st p hfs] at h
    dsimp only [] at h
    simp only [Except.ok.injEq, Prod.mk.injEq] at h
    obtain ⟨hst, -⟩ := h
    subst hst
    rw [probe_none st p hfs]
    rfl
  | some e =>
    cases e with
    | file pm c =>
      rw [probe_file st p pm c hfs] at h
      dsimp only [ActualStateEntry.Path] at h
      simp only [sysRemoveAll, Except.ok.injEq, Prod.mk.injEq] at h
      obtain ⟨hst, -⟩ := h
      subst hst
      rw [probe_removed st p]
      rfl
    | dir pm =>
      rw [probe_dir st p pm hfs] at h
      dsimp only [ActualStateEntry.Path] at h
      simp only [sysRemoveAll, Except.ok.injEq, Prod.mk.injEq] at h
      obtain ⟨hst, -⟩ := h
      subst hst
      rw [probe_removed st p]
      rfl
    | symlink ln =>
      rw [probe_symlink st p ln hfs] at h
      dsimp only [ActualStateEntry.Path] at h
      simp only [sysRemoveAll, Except.ok.injEq, Prod.mk.injEq] at h
      obtain ⟨hst, -⟩ := h
      subst hst
      rw [probe_removed st p]
      rfl

/-- Apply then Equal on a fresh probe, for the directory target state. -/
theorem dir_apply_equal (t : TargetStateDir) (st st1 : SysState)
    (p : Path) (u : Nat) (l : List SysOp) (hu : st.umask = u)
    (h : t.Apply (probeEntry st p) u st = .ok (st1, l)) :
    t.Equal (probeEntry st1 p) u = .ok true := by
  unfold TargetStateDir.Apply at h
  cases hfs : fsGet st.fs p with
  | none =>
    rw [probe_none st p hfs] at h
    dsimp only [ActualStateEntry.Remove, ActualStateEntry.Path] at h
    simp only [sysMkdir, hfs, Except.ok.injEq, Prod.mk.injEq] at h
    obtain ⟨hst, -⟩ := h
    subst hst
    simp [TargetStateDir.Equal, probe_set_dir,
      hu, umaskPermEqual_masked]
  | some e =>
    cases e with
    | dir pm =>
      rw [probe_dir st p pm hfs] at h
      dsimp only [] at h
      by_cases hperm : umaskPermEqual pm t.perm u = true
      · rw [if_pos hperm] at h
        simp only [Except.ok.injEq, Prod.mk.injEq] at h
        obtain ⟨hst, -⟩ := h
        subst hst
        simp [TargetStateDir.Equal, probe_dir st p pm hfs, hperm]
      · rw [if_neg hperm] at h
        simp only [sysChmod, hfs, Except.ok.injEq, Prod.mk.injEq] at h
        obtain ⟨hst, -⟩ := h
        subst hst
        simp [TargetStateDir.Equal, probe_set_dir,
          umaskPermEqual_refl]
    | file pm c =>
      rw [probe_file st p pm c hfs] at h
      dsimp only [ActualStateEntry.Remove, ActualStateEntry.Path] at h
      simp only [sysRemoveAll, sysMkdir, fsGet_fsRemove_self, Except.ok.injEq,
        Prod.mk.injEq] at h
      obtain ⟨hst, -⟩ := h
      subst hst
      simp [TargetStateDir.Equal, probe_set_dir,
        hu, umaskPermEqual_masked]
    | symlink ln =>
      rw [probe_symlink st p ln hfs] at h
      dsimp only [ActualStateEntry.Remove, ActualStateEntry.Path] at h
      simp only [sysRemoveAll, sysMkdir, fsGet_fsRemove_self, Except.ok.injEq,
        Prod.mk.injEq] at h
      obtain ⟨hst, -⟩ := h
      subst hst
      simp [TargetStateDir.Equal, probe_set_dir,
        hu, umaskPermEqual_masked]

/-- Apply then Equal on a fresh probe, for the file target state. -/
theorem file_apply_equal (t : TargetStateFile) (st st1 : SysState)
    (p : Path) (u : Nat) (l : List SysOp) (hu : st.umask = u)
    (h : t.Apply (probeEntry st p) u st = .ok (st1, l)) :
    t.Equal (probeEntry st1 p) u = .ok true := by
  unfold TargetStateFile.Apply at h
  cases hfs : fsGet st.fs p with
  | none =>
    rw [probe_none st p hfs] at h
    dsimp only [ActualStateEntry.Remove, ActualStateEntry.Path] at h
    cases hc : t.contents with
    | error e => rw [hc] at h; exact absurd h (by simp)
    | ok c =>
      rw [hc] at h
      dsimp only [] at h
      simp only [sysWriteFile, Except.ok.injEq, Prod.mk.injEq] at h
      obtain ⟨hst, -⟩ := h
      subst hst
      simp [TargetStateFile.Equal, probe_set_file,
        hc, hu, umaskPermEqual_masked]
  | some e =>
    cases e with
    | file pm cf =>
      rw [probe_file st p pm cf hfs] at h
      dsimp only [] at h
      cases hc : t.contents with
      | error e => rw [hc] at h; exact absurd h (by simp)
      | ok c =>
        rw [hc] at h
        dsimp only [] at h
        by_cases hs : sha256 cf = sha256 c
        · rw [if_pos hs] at h
          by_cases hperm : umaskPermEqual pm t.perm u = true
          · rw [if_pos hperm] at h
            simp only [Except.ok.injEq, Prod.mk.injEq] at h
            obtain ⟨hst, -⟩ := h
            subst hst
            simp [TargetStateFile.Equal, probe_file st p pm cf hfs, hc, hperm, hs]
          · rw [if_neg hperm] at h
            simp only [sysChmod, hfs, Except.ok.injEq, Prod.mk.injEq] at h
            obtain ⟨hst, -⟩ := h
            subst hst
            simp [TargetStateFile.Equal,
              probe_set_file, hc, hs,
              umaskPermEqual_refl]
        · rw [if_neg hs] at h
          simp only [sysWriteFile, Except.ok.injEq, Prod.mk.injEq] at h
          obtain ⟨hst, -⟩ := h
          subst hst
          simp [TargetStateFile.Equal,
            probe_set_file, hc, hu,
            umaskPermEqual_masked]
    | dir pm =>
      rw [probe_dir st p pm hfs] at h
      dsimp only [ActualStateEntry.Remove, ActualStateEntry.Path] at h
      cases hc : t.contents with
      | error e => rw [hc] at h; simp [sysRemoveAll] at h
      | ok c =>
        rw [hc] at h
        dsimp only [] at h
        simp only [sysRemoveAll, sysWriteFile, Except.ok.injEq, Prod.mk.injEq] at h
        obtain ⟨hst, -⟩ := h
        subst hst
        simp [TargetStateFile.Equal, probe_set_file,
          hc, hu, umaskPermEqual_masked]
    | symlink ln =>
      rw [probe_symlink st p ln hfs] at h
      dsimp only [ActualStateEntry.Remove, ActualStateEntry.Path] at h
      cases hc : t.contents with
      | error e => rw [hc] at h; simp [sysRemoveAll] at h
      | ok c =>
        rw [hc] at h
        dsimp only [] at h
        simp only [sysRemoveAll, sysWriteFile, Except.ok.injEq, Prod.mk.injEq] at h
        obtain ⟨hst, -⟩ := h
        subst hst
        simp [TargetStateFile.Equal, probe_set_file,
          hc, hu, umaskPermEqual_masked]

/-- Apply then Equal on a fresh probe, for the present target state. -/
theorem present_apply_equal (t : TargetStatePresent) (st st1 : SysState)
    (p : Path) (u : Nat) (l : List SysOp) (hu : st.umask = u)
    (h : t.Apply (probeEntry st p) u st = .ok (st1, l)) :
    t.Equal (probeEntry st1 p) u = .ok true := by
  unfold TargetStatePresent.Apply at h
  cases hfs : fsGet st.fs p with
  | none =>
    rw [probe_none st p hfs] at h
    dsimp only [ActualStateEntry.Remove, ActualStateEntry.Path] at h
    cases hc : t.contents with
    | error e => rw [hc] at h; exact absurd h (by simp)
    | ok c =>
      rw [hc] at h
      dsimp only [] at h
      simp only [sysWriteFile, Except.ok.injEq, Prod.mk.injEq] at h
      obtain ⟨hst, -⟩ := h
      subst hst
      simp [TargetStatePresent.Equal, probe_set_file, hu, umaskPermEqual_masked]
  | some e =>
    cases e with
    | file pm cf =>
      rw [probe_file st p pm cf hfs] at h
      dsimp only [] at h
      by_cases hperm : umaskPermEqual pm t.perm u = true
      · rw [if_pos hperm] at h
        simp only [Except.ok.injEq, Prod.mk.injEq] at h
        obtain ⟨hst, -⟩ := h
        subst hst
        simp [TargetStatePresent.Equal, probe_file st p pm cf hfs, hperm]
      · rw [if_neg hperm] at h
        simp only [sysChmod, hfs, Except.ok.injEq, Prod.mk.injEq] at h
        obtain ⟨hst, -⟩ := h
        subst hst
        simp [TargetStatePresent.Equal, probe_set_file, umaskPermEqual_refl]
    | dir pm =>
      rw [probe_dir st p pm hfs] at h
      dsimp only [ActualStateEntry.Remove, ActualStateEntry.Path] at h
      cases hc : t.contents with
      | error e => rw [hc] at h; simp [sysRemoveAll] at h
      | ok c =>
        rw [hc] at h
        dsimp only [] at h
        simp only [sysRemoveAll, sysWriteFile, Except.ok.injEq, Prod.mk.injEq] at h
        obtain ⟨hst, -⟩ := h
        subst hst
        simp [TargetStatePresent.Equal, probe_set_file, hu, umaskPermEqual_masked]
    | symlink ln =>
      rw [probe_symlink st p ln hfs] at h
      dsimp only [ActualStateEntry.Remove, ActualStateEntry.Path] at h
      cases hc : t.contents with
      | error e => rw [hc] at h; simp [sysRemoveAll] at h
      | ok c =>
        rw [hc] at h
        dsimp only [] at h
        simp only [sysRemoveAll, sysWriteFile, Except.ok.injEq, Prod.mk.injEq] at h
        obtain ⟨hst, -⟩ := h
        subst hst
        simp [TargetStatePresent.Equal, probe_set_file, hu, umaskPermEqual_masked]

/-- Apply then Equal on a fresh probe, for the symlink target state. -/
theorem symlink_apply_equal (t : TargetStateSymlink) (st st1 : SysState)
    (p : Path) (u : Nat) (l : List SysOp)
    (h : t.Apply (probeEntry st p) u st = .ok (st1, l)) :
    t.Equal (probeEntry st1 p) u = .ok true := by
  unfold TargetStateSymlink.Apply at h
  cases hfs : fsGet st.fs p with
  | none =>
    rw [probe_none st p hfs] at h
    dsimp only [ActualStateEntry.Remove, ActualStateEntry.Path] at h
    cases hl : t.linkname with
    | error e => rw [hl] at h; exact absurd h (by simp)
    | ok ln =>
      rw [hl] at h
      dsimp only [] at h
      simp only [sysWriteSymlink, Except.ok.injEq, Prod.mk.injEq] at h
      obtain ⟨hst, -⟩ := h
      subst hst
      simp [TargetStateSymlink.Equal, probe_set_symlink, hl]
  | some e =>
    cases e with
    | symlink al =>
      rw [probe_symlink st p al hfs] at h
      dsimp only [] at h
      cases hl : t.linkname with
      | error e => rw [hl] at h; exact absurd h (by simp)
      | ok ln =>
        rw [hl] at h
        dsimp only [] at h
        by_cases heq : al = ln
        · rw [if_pos heq] at h
          simp only [Except.ok.injEq, Prod.mk.injEq] at h
          obtain ⟨hst, -⟩ := h
          subst hst
          simp [TargetStateSymlink.Equal, probe_symlink st p al hfs, hl, heq]
        · rw [if_neg heq] at h
          dsimp only [ActualStateEntry.Remove, ActualStateEntry.Path] at h
          simp only [sysRemoveAll, sysWriteSymlink, Except.ok.injEq,
            Prod.mk.injEq] at h
          obtain ⟨hst, -⟩ := h
          subst hst
          simp [TargetStateSymlink.Equal, probe_set_symlink, hl]
    | file pm cf =>
      rw [probe_file st p pm cf hfs] at h
      dsimp only [ActualStateEntry.Remove, ActualStateEntry.Path] at h
      cases hl : t.linkname with
      | error e => rw [hl] at h; simp at h
      | ok ln =>
        rw [hl] at h
        dsimp only [] at h
        simp only [sysRemoveAll, sysWriteSymlink, Except.ok.injEq,
          Prod.mk.injEq] at h
        obtain ⟨hst, -⟩ := h
        subst hst
        simp [TargetStateSymlink.Equal, probe_set_symlink, hl]
    | dir pm =>
      rw [probe_dir st p pm hfs] at h
      dsimp only [ActualStateEntry.Remove, ActualStateEntry.Path] at h
      cases hl : t.linkname with
      | error e => rw [hl] at h; simp at h
      | ok ln =>
        rw [hl] at h
        dsimp only [] at h
        simp only [sysRemoveAll, sysWriteSymlink, Except.ok.injEq,
          Prod.mk.injEq] at h
        obtain ⟨hst, -⟩ := h
        subst hst
        simp [TargetStateSymlink.Equal, probe_set_symlink, hl]

/-- Claim C1 amended: for every target-state entry variant except
rename-directory, every modelled system state and umask (the process
creation umask agreeing with the comparison umask): if Apply on the
probed actual state succeeds, then Equal on a fresh probe of the
resulting actual state returns true. -/
theorem targetState_apply_then_equal (t : TargetStateEntry) (st st1 : SysState)
    (p : Path) (u : Nat) (l : List SysOp)
    (hnr : t.isRenameDir = false) (hu : st.umask = u)
    (h : t.Apply (probeEntry st p) u st = .ok (st1, l)) :
    t.Equal (probeEntry st1 p) u = .ok true := by
  cases t with
  | absent t0 => exact absent_apply_equal t0 st st1 p u l h
  | dir t0 => exact dir_apply_equal t0 st st1 p u l hu h
  | file t0 => exact file_apply_equal t0 st st1 p u l hu h
  | present t0 => exact present_apply_equal t0 st st1 p u l hu h
  | renameDir t0 => simp [TargetStateEntry.isRenameDir] at hnr
  | script t0 => rfl
  | symlink t0 => exact symlink_apply_equal t0 st st1 p u l h

/-- Witness for the amended apply-then-equal claim: installing a file
into an empty destination, then Equal on the fresh probe. -/
theorem targetState_apply_then_equal_witness :
    TargetStateEntry.Equal (.file ⟨.ok [104], 420⟩)
        (probeEntry ⟨[("/a", .file 420 [104])], [], [], 0, 0⟩ "/a") 0 =
      .ok true :=
  targetState_apply_then_equal (.file ⟨.ok [104], 420⟩)
    ⟨[], [], [], 0, 0⟩ ⟨[("/a", .file 420 [104])], [], [], 0, 0⟩ "/a" 0
    [SysOp.writeFile "/a" [104] 420] rfl rfl (by decide)

/-- Counterexample to claim C1 as stated: a rename-directory target
whose Apply succeeds (the directory is renamed), while Equal on a fresh
probe of the resulting actual state returns false, since
TargetStateRenameDir.Equal is unconditionally false. -/
theorem renameDir_apply_equal_false :
    TargetStateEntry.Apply (.renameDir ⟨"old", "new"⟩)
        (probeEntry ⟨[("/d/old", .dir 493)], [], [], 0, 0⟩ "/d/old") 0
        ⟨[("/d/old", .dir 493)], [], [], 0, 0⟩ =
      .ok (⟨[("/d/new", .dir 493)], [], [], 0, 0⟩,
        [SysOp.rename "/d/old" "/d/new"]) ∧
      TargetStateEntry.Equal (.renameDir ⟨"old", "new"⟩)
        (probeEntry ⟨[("/d/new", .dir 493)], [], [], 0, 0⟩ "/d/old") 0 =
      .ok false :=
  ⟨by decide, rfl⟩

/-! ## Claim C6: the unmanaged listing -/

mutual
/-- Entries below an ancestor that is unmanaged or ignored never pass the
specification filter (tree case). -/
theorem allEntriesTree_bad_anc (m i : List String → Bool)
    (anc : List (List String)) (pre : List String) (t : DirTree)
    (hbad : anc.all (fun a => m a && !i a) = false) :
    (allEntriesTree anc pre t).filterMap (fun pa =>
      if (!m pa.1 && !i pa.1) && pa.2.all (fun a => m a && !i a) then some pa.1
      else none) = [] := by
  cases t with
  | file n =>
    simp only [allEntriesTree, List.filterMap_cons, List.filterMap_nil]
    rw [show (if ((!m (pre ++ [n]) && !i (pre ++ [n])) &&
        anc.all (fun a => m a && !i a)) = true then some (pre ++ [n])
        else none) = none from by rw [hbad]; simp]
  | dir n cs =>
    simp only [allEntriesTree, List.filterMap_cons]
    rw [show (if ((!m (pre ++ [n]) && !i (pre ++ [n])) &&
        anc.all (fun a => m a && !i a)) = true then some (pre ++ [n])
        else none) = none from by rw [hbad]; simp]
    apply allEntriesForest_bad_anc
    rw [List.all_append, hbad]
    simp

/-- Entries below an ancestor that is unmanaged or ignored never pass the
specification filter (forest case). -/
theorem allEntriesForest_bad_anc (m i : List String → Bool)
    (anc : List (List String)) (pre : List String) (f : DirForest)
    (hbad : anc.all (fun a => m a && !i a) = false) :
    (allEntriesForest anc pre f).filterMap (fun pa =>
      if (!m pa.1 && !i pa.1) && pa.2.all (fun a => m a && !i a) then some pa.1
      else none) = [] := by
  cases f with
  | nil => rfl
  | cons t rest =>
    simp only [allEntriesForest, List.filterMap_append]
    rw [allEntriesTree_bad_anc m i anc pre t hbad,
      allEntriesForest_bad_anc m i anc pre rest hbad]
    rfl
end

mutual
/-- The pruned walk of one node equals the global filter over its full
enumeration, provided every ancestor so far is managed and not
ignored. -/
theorem walkTree_eq_spec (m i : List String → Bool)
    (anc : List (List String)) (pre : List String) (t : DirTree)
    (hgood : anc.all (fun a => m a && !i a) = true) :
    walkUnmanagedTree m i pre t =
      (allEntriesTree anc pre t).filterMap (fun pa =>
        if (!m pa.1 && !i pa.1) && pa.2.all (fun a => m a && !i a) then some pa.1
        else none) := by
  cases t with
  | file n =>
    simp only [walkUnmanagedTree, allEntriesTree, List.filterMap_cons,
      List.filterMap_nil]
    by_cases he : (!m (pre ++ [n]) && !i (pre ++ [n])) = true
    · rw [if_pos he]
      rw [show (if ((!m (pre ++ [n]) && !i (pre ++ [n])) &&
          anc.all (fun a => m a && !i a)) = true then some (pre ++ [n])
          else none) = some (pre ++ [n]) from by rw [hgood, he]; simp]
    · rw [if_neg he]
      rw [show (if ((!m (pre ++ [n]) && !i (pre ++ [n])) &&
          anc.all (fun a => m a && !i a)) = true then some (pre ++ [n])
          else none) = none from by simp [he]]
  | dir n cs =>
    have htail : (if (!m (pre ++ [n]) || i (pre ++ [n])) = true then []
        else walkUnmanagedForest m i (pre ++ [n]) cs) =
        (allEntriesForest (anc ++ [pre ++ [n]]) (pre ++ [n]) cs).filterMap
          (fun pa => if (!m pa.1 && !i pa.1) &&
            pa.2.all (fun a => m a && !i a) then some pa.1 else none) := by
      by_cases hprune : (!m (pre ++ [n]) || i (pre ++ [n])) = true
      · have hbad : (anc ++ [pre ++ [n]]).all (fun a => m a && !i a) = false := by
          rw [List.all_append]
          simp only [List.all_cons, List.all_nil, Bool.and_true]
          cases hm : m (pre ++ [n]) <;> cases hi : i (pre ++ [n]) <;> simp_all
        rw [if_pos hprune,
          allEntriesForest_bad_anc m i (anc ++ [pre ++ [n]]) (pre ++ [n]) cs hbad]
      · have hgood2 : (anc ++ [pre ++ [n]]).all (fun a => m a && !i a) = true := by
          rw [List.all_append]
          simp only [List.all_cons, List.all_nil, Bool.and_true, hgood,
            Bool.true_and]
          cases hm : m (pre ++ [n]) <;> cases hi : i (pre ++ [n]) <;> simp_all
        rw [if_neg hprune]
        exact walkForest_eq_spec m i (anc ++ [pre ++ [n]]) (pre ++ [n]) cs hgood2
    simp only [walkUnmanagedTree, allEntriesTree, List.filterMap_cons]
    by_cases he : (!m (pre ++ [n]) && !i (pre ++ [n])) = true
    · rw [if_pos he]
      rw [show (if ((!m (pre ++ [n]) && !i (pre ++ [n])) &&
          anc.all (fun a => m a && !i a)) = true then some (pre ++ [n])
          else none) = some (pre ++ [n]) from by rw [hgood, he]; simp]
      rw [htail]
      simp
    · rw [if_neg he]
      rw [show (if ((!m (pre ++ [n]) && !i (pre ++ [n])) &&
          anc.all (fun a => m a && !i a)) = true then some (pre ++ [n])
          else none) = none from by simp [he]]
      rw [htail]
      simp

/-- The pruned walk of a sibling list equals the global filter over its
full enumeration, provided every ancestor so far is managed and not
ignored. -/
theorem walkForest_eq_spec (m i : List String → Bool)
    (anc : List (List String)) (pre : List String) (f : DirForest)
    (hgood : anc.all (fun a => m a && !i a) = true) :
    walkUnmanagedForest m i pre f =
      (allEntriesForest anc pre f).filterMap (fun pa =>
        if (!m pa.1 && !i pa.1) && pa.2.all (fun a => m a && !i a) then some pa.1
        else none) := by
  cases f with
  | nil => rfl
  | cons t rest =>
    simp only [walkUnmanagedForest, allEntriesForest, List.filterMap_append]
    rw [walkTree_eq_spec m i anc pre t hgood,
      walkForest_eq_spec m i anc pre rest hgood]
end

/-- Claim C6: the unmanaged listing emits exactly those walked paths of
the destination (the root itself excluded) that are neither present in
the source state nor ignored, and descent into every unmanaged or
ignored directory is pruned: a path is listed precisely when it fails
both predicates and every proper ancestor below the root is managed and
not ignored. -/
theorem runUnmanagedCmd_spec (managed ignored : List String → Bool)
    (dest : DirForest) :
    runUnmanagedCmd managed ignored dest =
      unmanagedSpecListing managed ignored dest := by
  unfold runUnmanagedCmd unmanagedSpecListing
  exact walkForest_eq_spec managed ignored [] [] dest rfl

end Chezmoi
